import Mathlib

/-!
Shallow embedding of the ingestion pipeline of `src/L13/crawler.py`
(`parse_forecasts`, `save_to_db`, `fetch_data`) and proofs of the
specification claims about it.

JSON payloads are modelled by the inductive `Json` (objects keep field
order, as Python dicts do).  Python exceptions that `crawler.py` does not
catch are modelled by `Except PyError`; Python `float` values are modelled
exactly, with `Rat` for finite values.
-/

/-- A JSON value as Python's `json` module produces it: `None`, numbers
(modelled as integers; the feed carries temperatures as strings), strings,
lists and dicts (association lists in insertion order). -/
inductive Json where
  | null : Json
  | num : Int → Json
  | str : String → Json
  | arr : List Json → Json
  | obj : List (String × Json) → Json

mutual

/-- Decidable equality on `Json` (written by hand: `deriving` does not
handle the nested `List` occurrences). -/
def decEqJson : (a b : Json) → Decidable (a = b)
  | .null, .null => isTrue rfl
  | .null, .num _ => isFalse (fun h => Json.noConfusion h)
  | .null, .str _ => isFalse (fun h => Json.noConfusion h)
  | .null, .arr _ => isFalse (fun h => Json.noConfusion h)
  | .null, .obj _ => isFalse (fun h => Json.noConfusion h)
  | .num _, .null => isFalse (fun h => Json.noConfusion h)
  | .num a, .num b =>
    match decEq a b with
    | isTrue h => isTrue (by rw [h])
    | isFalse h => isFalse (by intro hh; injection hh; contradiction)
  | .num _, .str _ => isFalse (fun h => Json.noConfusion h)
  | .num _, .arr _ => isFalse (fun h => Json.noConfusion h)
  | .num _, .obj _ => isFalse (fun h => Json.noConfusion h)
  | .str _, .null => isFalse (fun h => Json.noConfusion h)
  | .str _, .num _ => isFalse (fun h => Json.noConfusion h)
  | .str a, .str b =>
    match decEq a b with
    | isTrue h => isTrue (by rw [h])
    | isFalse h => isFalse (by intro hh; injection hh; contradiction)
  | .str _, .arr _ => isFalse (fun h => Json.noConfusion h)
  | .str _, .obj _ => isFalse (fun h => Json.noConfusion h)
  | .arr _, .null => isFalse (fun h => Json.noConfusion h)
  | .arr _, .num _ => isFalse (fun h => Json.noConfusion h)
  | .arr _, .str _ => isFalse (fun h => Json.noConfusion h)
  | .arr a, .arr b =>
    match decEqJsonList a b with
    | isTrue h => isTrue (by rw [h])
    | isFalse h => isFalse (by intro hh; injection hh; contradiction)
  | .arr _, .obj _ => isFalse (fun h => Json.noConfusion h)
  | .obj _, .null => isFalse (fun h => Json.noConfusion h)
  | .obj _, .num _ => isFalse (fun h => Json.noConfusion h)
  | .obj _, .str _ => isFalse (fun h => Json.noConfusion h)
  | .obj _, .arr _ => isFalse (fun h => Json.noConfusion h)
  | .obj a, .obj b =>
    match decEqJsonFields a b with
    | isTrue h => isTrue (by rw [h])
    | isFalse h => isFalse (by intro hh; injection hh; contradiction)

/-- Decidable equality on lists of `Json` values. -/
def decEqJsonList : (a b : List Json) → Decidable (a = b)
  | [], [] => isTrue rfl
  | [], _ :: _ => isFalse (fun h => List.noConfusion h)
  | _ :: _, [] => isFalse (fun h => List.noConfusion h)
  | x :: xs, y :: ys =>
    match decEqJson x y with
    | isFalse h => isFalse (by intro hh; injection hh; contradiction)
    | isTrue h1 =>
      match decEqJsonList xs ys with
      | isTrue h2 => isTrue (by rw [h1, h2])
      | isFalse h => isFalse (by intro hh; injection hh; contradiction)

/-- Decidable equality on `Json` object field lists. -/
def decEqJsonFields : (a b : List (String × Json)) → Decidable (a = b)
  | [], [] => isTrue rfl
  | [], _ :: _ => isFalse (fun h => List.noConfusion h)
  | _ :: _, [] => isFalse (fun h => List.noConfusion h)
  | (k, v) :: xs, (k', v') :: ys =>
    match decEq k k' with
    | isFalse h =>
      isFalse (by intro hh; injection hh with h1 h2; injection h1; contradiction)
    | isTrue hk =>
      match decEqJson v v' with
      | isFalse h =>
        isFalse (by intro hh; injection hh with h1 h2; injection h1; contradiction)
      | isTrue hv =>
        match decEqJsonFields xs ys with
        | isTrue ht => isTrue (by rw [hk, hv, ht])
        | isFalse h => isFalse (by intro hh; injection hh; contradiction)

end

instance : DecidableEq Json := decEqJson

/-- The Python exceptions that can escape `parse_forecasts` (its
`try` block only catches `KeyError`/`TypeError` around the key-path
navigation). -/
inductive PyError where
  | typeError : PyError
  | attributeError : PyError
deriving DecidableEq

/-- A Python `float` value: finite values are modelled exactly as
rationals; `inf`, `-inf` and `nan` are symbolic. -/
inductive PyFloat where
  | finite : Rat → PyFloat
  | inf : PyFloat
  | negInf : PyFloat
  | nan : PyFloat
deriving DecidableEq

instance {ε α : Type} [DecidableEq ε] [DecidableEq α] : DecidableEq (Except ε α) := by
  intro a b
  cases a <;> cases b
  case error.error e e' =>
    match decEq e e' with
    | isTrue h => exact isTrue (by rw [h])
    | isFalse h => exact isFalse (by intro hh; injection hh; contradiction)
  case ok.ok x y =>
    match decEq x y with
    | isTrue h => exact isTrue (by rw [h])
    | isFalse h => exact isFalse (by intro hh; injection hh; contradiction)
  all_goals exact isFalse (fun h => Except.noConfusion h)

/-- Negation of a Python float (used for a leading `-` sign;
`float("-nan")` is still `nan`). -/
def PyFloat.neg : PyFloat → PyFloat
  | .finite q => .finite (-q)
  | .inf => .negInf
  | .negInf => .inf
  | .nan => .nan

/-- Continuation of `digit+ ('_' digit+)*`: the tail of a digit group in a
Python numeric literal, where each underscore sits between two digits. -/
def groupTail : List Char → Bool
  | [] => true
  | '_' :: c :: rest => c.isDigit && groupTail rest
  | ['_'] => false
  | c :: rest => c.isDigit && groupTail rest

/-- A (possibly empty) digit group of a Python numeric literal:
empty, or `digit+ ('_' digit+)*`. -/
def groupOk : List Char → Bool
  | [] => true
  | c :: rest => c.isDigit && groupTail rest

/-- Remove the underscores of a validated digit group. -/
def stripUnd (cs : List Char) : List Char :=
  cs.filter (fun c => c != '_')

/-- Numeric value of a list of decimal digits. -/
def digitsToNat (cs : List Char) : Nat :=
  cs.foldl (fun acc c => acc * 10 + (c.toNat - '0'.toNat)) 0

/-- Split a character list at the first character satisfying `p`:
returns the part before it and, when found, the part after it. -/
def splitFirst (p : Char → Bool) : List Char → List Char × Option (List Char)
  | [] => ([], none)
  | c :: rest =>
    if p c then ([], some rest)
    else
      let r := splitFirst p rest
      (c :: r.1, r.2)

/-- Exact value of `intDigits.fracDigits × 10^e` as a rational, computed
with integer arithmetic only (kernel-reducible, unlike `Rat` field ops). -/
def decValue (iD fD : List Char) (e : Int) : Rat :=
  let digits := digitsToNat (iD ++ fD)
  let e' : Int := e - fD.length
  if 0 ≤ e' then mkRat (digits * 10 ^ e'.toNat : Nat) 1
  else mkRat digits (10 ^ (-e').toNat)

/-- Parse a sign-stripped, lower-cased Python float literal body:
`inf`/`infinity`/`nan`, or `[digits][.digits][e[sign]digits]` with
underscores allowed between digits.  `none` models `ValueError`. -/
def pyFloatCore (cs : List Char) : Option PyFloat :=
  if cs = "inf".data ∨ cs = "infinity".data then some .inf
  else if cs = "nan".data then some .nan
  else
    let me := splitFirst (fun c => c = 'e') cs
    let ifr := splitFirst (fun c => c = '.') me.1
    let fracL := ifr.2.getD []
    if groupOk ifr.1 && groupOk fracL
        && !(stripUnd ifr.1 = [] && stripUnd fracL = []) then
      match me.2 with
      | none => some (.finite (decValue (stripUnd ifr.1) (stripUnd fracL) 0))
      | some es =>
        let se : Int × List Char :=
          match es with
          | '+' :: r => (1, r)
          | '-' :: r => (-1, r)
          | r => (1, r)
        if se.2 ≠ [] && groupOk se.2 then
          some (.finite (decValue (stripUnd ifr.1) (stripUnd fracL)
            (se.1 * (digitsToNat (stripUnd se.2) : Int))))
        else none
    else none

/-- Strip leading and trailing whitespace. -/
def trimWs (cs : List Char) : List Char :=
  ((cs.dropWhile Char.isWhitespace).reverse.dropWhile Char.isWhitespace).reverse

/-- Model of Python's built-in `float(s)` on a string argument:
`some v` when `float` succeeds with value `v`, `none` when it raises
`ValueError`. -/
def pyFloat? (s : String) : Option PyFloat :=
  match (trimWs s.data).map Char.toLower with
  | '+' :: rest => pyFloatCore rest
  | '-' :: rest => (pyFloatCore rest).map PyFloat.neg
  | rest => pyFloatCore rest

/-- crawler.py lines 17–23, `to_float`: `None` and `""` map to `None`;
a string is passed to `float`, with `ValueError` caught (→ `None`);
a number converts exactly; a list or dict makes `float` raise an
uncaught `TypeError`. -/
def to_float (value : Json) : Except PyError (Option PyFloat) :=
  match value with
  | .null => .ok none
  | .str s => if s = "" then .ok none else .ok (pyFloat? s)
  | .num n => .ok (some (.finite (n : Rat)))
  | .arr _ => .error .typeError
  | .obj _ => .error .typeError

/-! ## Python dict / list semantics used by `parse_forecasts` -/

/-- Value of key `k` in a dict, as Python's `json` module builds dicts:
a duplicated key keeps the value seen last. -/
def lookupLast (fields : List (String × Json)) (k : String) : Option Json :=
  fields.foldl (fun acc p => if p.1 = k then some p.2 else acc) none

/-- Python subscription `j[k]` with a string key, collapsed to `Option`:
`none` stands for the `KeyError` (key absent) or `TypeError` (not a dict)
that the `try` block of `parse_forecasts` catches. -/
def subscript (j : Json) (k : String) : Option Json :=
  match j with
  | .obj fs => lookupLast fs k
  | _ => none

/-- Python `d.get(k, default)`: `AttributeError` when `d` is not a dict. -/
def dictGetD (j : Json) (k : String) (default : Json) : Except PyError Json :=
  match j with
  | .obj fs => .ok ((lookupLast fs k).getD default)
  | _ => .error .attributeError

/-- Python `d.get(k)` (default `None`). -/
def dictGet (j : Json) (k : String) : Except PyError Json :=
  dictGetD j k .null

/-- Python truthiness of a JSON value (`if not x`). -/
def truthy : Json → Bool
  | .null => false
  | .num n => n != 0
  | .str s => s ≠ ""
  | .arr xs => !xs.isEmpty
  | .obj fs => !fs.isEmpty

/-- Python iteration `for x in j`: lists yield their elements, strings
their characters, dicts their keys; `None` and numbers raise `TypeError`. -/
def pyIterate : Json → Except PyError (List Json)
  | .arr xs => .ok xs
  | .str s => .ok (s.data.map (fun c => .str (String.mk [c])))
  | .obj fs => .ok (fs.map (fun p => .str p.1))
  | .null => .error .typeError
  | .num _ => .error .typeError

/-- Python hashability: lists and dicts cannot be dict keys. -/
def hashable : Json → Bool
  | .arr _ => false
  | .obj _ => false
  | _ => true

/-- Effectful `map` over a list, stopping at the first raised exception —
the semantics of a Python `for` loop or comprehension body. -/
def mapEx (f : α → Except PyError β) : List α → Except PyError (List β)
  | [] => .ok []
  | x :: xs => do
    let y ← f x
    let ys ← mapEx f xs
    .ok (y :: ys)

/-! ## Python `sorted` on dict keys

Python compares strings lexicographically by code point; comparing
values of distinct types (`None` vs `str`, `int` vs `str`, …) raises
`TypeError`.  `sorted` on a set with at least two elements of
incomparable types therefore raises; otherwise it sorts. -/

/-- Lexicographic strict order on character lists by code point —
Python's `<` on strings. -/
def strLtB : List Char → List Char → Bool
  | [], [] => false
  | [], _ :: _ => true
  | _ :: _, [] => false
  | a :: as, b :: bs =>
    if a.toNat < b.toNat then true
    else if b.toNat < a.toNat then false
    else strLtB as bs

/-- Weak order `a ≤ b` on character lists. -/
def strLeB (a b : List Char) : Bool := !strLtB b a

/-- Key comparator used by `sorted` on string keys. -/
def jsonStrLe (a b : Json) : Bool :=
  strLeB (match a with | .str s => s.data | _ => [])
    (match b with | .str s => s.data | _ => [])

/-- Key comparator used by `sorted` on integer keys. -/
def jsonNumLe (a b : Json) : Bool :=
  (match a with | .num n => n | _ => 0) ≤ (match b with | .num n => n | _ => 0)

/-- Insert into a sorted list (insertion-sort step). -/
def orderedIns (le : α → α → Bool) (x : α) : List α → List α
  | [] => [x]
  | y :: ys => if le x y then x :: y :: ys else y :: orderedIns le x ys

/-- Insertion sort under a boolean comparator — the model of Python's
`sorted`. -/
def insSort (le : α → α → Bool) : List α → List α
  | [] => []
  | x :: xs => orderedIns le x (insSort le xs)

/-- Is the value a string? -/
def isStrJ : Json → Bool
  | .str _ => true
  | _ => false

/-- Is the value a number? -/
def isNumJ : Json → Bool
  | .num _ => true
  | _ => false

/-- Python `sorted(S)` on a set `S` of dict keys (given as a
duplicate-free list): succeeds when the comparisons it performs succeed,
which for at least two elements requires all of them to be strings or
all numbers; a lone key of any type needs no comparison. -/
def pySorted (ks : List Json) : Except PyError (List Json) :=
  if ks.length ≤ 1 then .ok ks
  else if ks.all isStrJ then .ok (insSort jsonStrLe ks)
  else if ks.all isNumJ then .ok (insSort jsonNumLe ks)
  else .error .typeError

/-! ## `parse_forecasts` (crawler.py lines 14–48) -/

/-- One emitted tuple `(location, date, max_temp, min_temp)`. -/
structure ForecastRecord where
  location : Json
  dataDate : Json
  maxTemp : Option PyFloat
  minTemp : Option PyFloat
deriving DecidableEq

/-- crawler.py lines 25–32: navigate
`payload["cwaopendata"]["resources"]["resource"]["data"]`
`["agrWeatherForecasts"]["weatherForecasts"]["location"]`;
`none` models the caught `KeyError`/`TypeError` (→ `return []`). -/
def getLocations (payload : Json) : Option Json :=
  (((((((subscript payload "cwaopendata").bind
    (subscript · "resources")).bind
    (subscript · "resource")).bind
    (subscript · "data")).bind
    (subscript · "agrWeatherForecasts")).bind
    (subscript · "weatherForecasts")).bind
    (subscript · "location"))

/-- crawler.py lines 42–43, one entry of a dict-comprehension:
evaluate `entry.get("dataDate")`, then
`to_float(entry.get("temperature"))`, then hash the key. -/
def entryPair (entry : Json) : Except PyError (Json × Option PyFloat) := do
  let d ← dictGet entry "dataDate"
  let t ← dictGet entry "temperature"
  let v ← to_float t
  if hashable d then .ok (d, v) else .error .typeError

/-- Python `m.get(k)` on a dict built by comprehension from `pairs` (later
entries overwrite): the value of the last pair with key `k`, `none` when
absent — in both cases the stored value is an `Option` already, and
Python's `.get` default `None` coincides with a stored `None`. -/
def mapGet (pairs : List (Json × Option PyFloat)) (k : Json) : Option PyFloat :=
  pairs.foldl (fun acc p => if p.1 = k then p.2 else acc) none

/-- crawler.py lines 35–47: the body of the `for location in locations`
loop, producing this location's records (or raising). -/
def parseLocation (location : Json) : Except PyError (List ForecastRecord) := do
  let locationName ← dictGet location "locationName"
  if !truthy locationName then .ok [] else do
  let weatherElements ← dictGetD location "weatherElements" (.obj [])
  let maxT ← dictGetD weatherElements "MaxT" (.obj [])
  let maxDaily ← dictGetD maxT "daily" (.arr [])
  let minT ← dictGetD weatherElements "MinT" (.obj [])
  let minDaily ← dictGetD minT "daily" (.arr [])
  let maxEntries ← pyIterate maxDaily
  let maxPairs ← mapEx entryPair maxEntries
  let minEntries ← pyIterate minDaily
  let minPairs ← mapEx entryPair minEntries
  let sortedKeys ← pySorted ((maxPairs.map (·.1) ++ minPairs.map (·.1)).dedup)
  .ok (sortedKeys.filterMap (fun d =>
    if truthy d then some ⟨locationName, d, mapGet maxPairs d, mapGet minPairs d⟩
    else none))

/-- crawler.py lines 14–48, `parse_forecasts`: `Except.error` models an
uncaught Python exception. -/
def parse_forecasts (payload : Json) : Except PyError (List ForecastRecord) :=
  match getLocations payload with
  | none => .ok []
  | some locs => do
    let locList ← pyIterate locs
    let recss ← mapEx parseLocation locList
    .ok recss.flatten

/-! ## Canonically shaped payloads and the spec-side contract -/

/-- The per-location data of a canonically shaped payload: a name and
the MaxT/MinT daily sequences as `(dataDate, temperature)` string pairs. -/
structure LocData where
  name : String
  maxDaily : List (String × String)
  minDaily : List (String × String)

/-- A daily entry `{"dataDate": d, "temperature": t}`. -/
def mkEntry (p : String × String) : Json :=
  .obj [("dataDate", .str p.1), ("temperature", .str p.2)]

/-- A location object of the feed's shape. -/
def mkLocation (l : LocData) : Json :=
  .obj [("locationName", .str l.name),
    ("weatherElements", .obj [
      ("MaxT", .obj [("daily", .arr (l.maxDaily.map mkEntry))]),
      ("MinT", .obj [("daily", .arr (l.minDaily.map mkEntry))])])]

/-- A payload carrying the given location objects under the expected
nested key path. -/
def mkPayload (locs : List Json) : Json :=
  .obj [("cwaopendata", .obj [("resources", .obj [("resource", .obj [("data",
    .obj [("agrWeatherForecasts", .obj [("weatherForecasts",
      .obj [("location", .arr locs)])])])])])])]

/-- The spec's temperature coercion: numeric string → its float value,
empty or non-numeric string → null. -/
def parseTemp (t : String) : Option PyFloat :=
  if t = "" then none else pyFloat? t

/-- Python's `≤` on strings (code-point lexicographic). -/
def strLeS (a b : String) : Bool := strLeB a.data b.data

/-- The date keys of a location, in order of appearance (MaxT then
MinT), without duplicates. -/
def dateUnion (l : LocData) : List String :=
  (l.maxDaily.map Prod.fst ++ l.minDaily.map Prod.fst).dedup

/-- Modelled from the spec (§4.1 contract, refinement target): for a
location with a non-empty name, one record per date in the union of the
two series' date keys, sorted ascending, each carrying whichever of
max/min is present for that date (missing → null); an empty name
contributes no records. -/
def specLocRecords (l : LocData) : List ForecastRecord :=
  if l.name = "" then []
  else
    (insSort strLeS (dateUnion l)).map (fun d =>
      ⟨.str l.name, .str d,
        (l.maxDaily.lookup d).bind parseTemp,
        (l.minDaily.lookup d).bind parseTemp⟩)

/-- The temperature of the last entry of the series carrying a given
date — what the dict comprehension of crawler.py line 42/43 stores when
a date is duplicated. -/
def lastLookup (entries : List (String × String)) (d : String) : Option String :=
  entries.foldl (fun acc p => if p.1 = d then some p.2 else acc) none

/-- Like `specLocRecords`, but with the code's exact behaviour on
degenerate inputs: duplicated dates inside one series resolve to the
*last* entry (the dict comprehension overwrites) and an empty-string
date is dropped (`if not data_date: continue`). -/
def codeLocRecords (l : LocData) : List ForecastRecord :=
  if l.name = "" then []
  else
    (insSort strLeS (dateUnion l)).filterMap (fun d =>
      if d = "" then none
      else some ⟨.str l.name, .str d,
        (lastLookup l.maxDaily d).bind parseTemp,
        (lastLookup l.minDaily d).bind parseTemp⟩)

/-- The date strings of a list of records (non-string dates, which
canonical payloads never produce, read as `""`). -/
def recordDates (rs : List ForecastRecord) : List String :=
  rs.map (fun r => match r.dataDate with | .str s => s | _ => "")

/-- The spec's §8 example payload. -/
def examplePayload : Json :=
  mkPayload [mkLocation ⟨"北部地區", [("2024-01-01", "20")], [("2024-01-01", "15")]⟩]

example :
    parse_forecasts examplePayload =
      .ok [⟨.str "北部地區", .str "2024-01-01", some (.finite 20), some (.finite 15)⟩] := by
  decide

example :
    parse_forecasts (mkPayload [mkLocation ⟨"N", [("2024-01-02", "7")], [("2024-01-01", "x")]⟩]) =
      .ok [⟨.str "N", .str "2024-01-01", none, none⟩,
        ⟨.str "N", .str "2024-01-02", some (.finite 7), none⟩] := by
  decide

example :
    parse_forecasts (mkPayload [Json.obj [("locationName", .str "X"),
      ("weatherElements", .obj [
        ("MaxT", .obj [("daily", .arr [.obj [("temperature", .str "20")],
          mkEntry ("2024-01-01", "21")])]),
        ("MinT", .obj [("daily", .arr [])])])]]) = .error .typeError := by
  decide

example : parse_forecasts (.obj []) = .ok [] := by decide

example :
    parse_forecasts (mkPayload [mkLocation ⟨"N", [("2024-01-02", "7")], [("2024-01-01", "2")]⟩]) =
      .ok (specLocRecords ⟨"N", [("2024-01-02", "7")], [("2024-01-01", "2")]⟩) := by
  decide

/-! ## `save_to_db` (crawler.py lines 51–81)

The `forecasts` table is modelled as a list of rows in rowid order; the
whole database state is `Option` of it, `none` while the table (and the
database file) does not exist yet.  `INSERT OR REPLACE` under the
`UNIQUE(location, data_date)` constraint deletes any row with the same
key and appends the new row. -/

/-- One row of the `forecasts` table. -/
structure DbRow where
  location : Json
  dataDate : Json
  maxTemp : Option PyFloat
  minTemp : Option PyFloat
  fetchedAt : String
deriving DecidableEq

/-- The row a record inserts, stamped with the batch timestamp. -/
def mkRow (r : ForecastRecord) (ts : String) : DbRow :=
  ⟨r.location, r.dataDate, r.maxTemp, r.minTemp, ts⟩

/-- SQLite `INSERT OR REPLACE` of one row: any existing row with the same
`(location, data_date)` key is deleted, the new row is appended. -/
def upsertRow (rows : List DbRow) (r : DbRow) : List DbRow :=
  rows.filter (fun q => !(q.location == r.location && q.dataDate == r.dataDate)) ++ [r]

/-- crawler.py lines 51–81, `save_to_db`: an empty batch returns before
touching the database; otherwise the table is created if absent and
every record is upserted with the one shared timestamp `ts`
(`datetime.utcnow().isoformat(timespec="seconds")`, modelled as a
parameter). -/
def save_to_db (records : List ForecastRecord) (ts : String)
    (db : Option (List DbRow)) : Option (List DbRow) :=
  if records.isEmpty then db
  else some ((records.map (mkRow · ts)).foldl upsertRow (db.getD []))

/-- The rows of the table holding a given `(location, data_date)` key. -/
def rowsForKey (rows : List DbRow) (loc date : Json) : List DbRow :=
  rows.filter (fun q => q.location == loc && q.dataDate == date)

/-- At most one row per `(location, data_date)` key. -/
def keysOk (rows : List DbRow) : Prop :=
  rows.Pairwise (fun a b => ¬(a.location = b.location ∧ a.dataDate = b.dataDate))

/-- A sequence of `save_to_db` calls starting from a fresh database. -/
def runBatches (batches : List (List ForecastRecord × String)) : Option (List DbRow) :=
  batches.foldl (fun db b => save_to_db b.1 b.2 db) none

/-! ## `fetch_data` (crawler.py lines 83–101) -/

/-- The fatal error of `fetch_data`: the fallback file is missing
(`FileNotFoundError`, raised unhandled). -/
inductive FetchError where
  | fileNotFound : FetchError
deriving DecidableEq

/-- crawler.py lines 83–101, `fetch_data`, with its two effects as
parameters: `network` is the outcome of the single
`requests.get` + `response.json()` attempt (`.error` standing for a
raised `requests.exceptions.RequestException`), and `fallback` the
parsed fallback file when it exists.  On network success the parsed
body is returned; on failure the fallback file is read; if it does not
exist a `FileNotFoundError` is raised. -/
def fetch_data (network : Except Unit Json) (fallback : Option Json) :
    Except FetchError Json :=
  match network with
  | .ok body => .ok body
  | .error _ =>
    match fallback with
    | some j => .ok j
    | none => .error .fileNotFound

example : pyFloat? "20" = some (.finite 20) := by decide
example : pyFloat? "12.5" = some (.finite (mkRat 25 2)) := by decide
example : pyFloat? "" = none := by decide
example : pyFloat? "abc" = none := by decide
example : pyFloat? " -1_0.5e1 " = some (.finite (-105)) := by decide
example : pyFloat? "inf" = some .inf := by decide
example : to_float (.str "15") = .ok (some (.finite 15)) := by decide

/-! # Verification

## Order lemmas for the code-point comparator -/

theorem charToNat_inj {x y : Char} (h : x.toNat = y.toNat) : x = y :=
  Char.ext (UInt32.ext h)

theorem strLtB_asymm (a : List Char) :
    ∀ b, strLtB a b = true → strLtB b a = false := by
  induction a with
  | nil =>
    intro b h
    cases b with
    | nil => simp [strLtB] at h
    | cons y ys => simp [strLtB]
  | cons x xs ih =>
    intro b h
    cases b with
    | nil => simp [strLtB] at h
    | cons y ys =>
      simp only [strLtB] at h ⊢
      by_cases h1 : x.toNat < y.toNat
      · have h2 : ¬ y.toNat < x.toNat := by omega
        simp [h1, h2]
      · by_cases h2 : y.toNat < x.toNat
        · simp [h1, h2] at h
        · simp only [h1, h2, if_false] at h
          simp [h1, h2, ih ys h]

theorem strLtB_trans (a : List Char) :
    ∀ b c, strLtB a b = true → strLtB b c = true → strLtB a c = true := by
  induction a with
  | nil =>
    intro b c hab hbc
    cases b with
    | nil => simp [strLtB] at hab
    | cons y ys =>
      cases c with
      | nil => simp [strLtB] at hbc
      | cons z zs => simp [strLtB]
  | cons x xs ih =>
    intro b c hab hbc
    cases b with
    | nil => simp [strLtB] at hab
    | cons y ys =>
      cases c with
      | nil => simp [strLtB] at hbc
      | cons z zs =>
        simp only [strLtB] at hab hbc ⊢
        by_cases h1 : x.toNat < y.toNat
        · by_cases h2 : y.toNat < z.toNat
          · simp [show x.toNat < z.toNat by omega]
          · by_cases h3 : z.toNat < y.toNat
            · simp [h2, h3] at hbc
            · simp [show x.toNat < z.toNat by omega]
        · by_cases h3 : y.toNat < x.toNat
          · simp [h1, h3] at hab
          · by_cases h2 : y.toNat < z.toNat
            · simp [show x.toNat < z.toNat by omega]
            · by_cases h4 : z.toNat < y.toNat
              · simp [h2, h4] at hbc
              · simp only [h1, h3, if_false] at hab
                simp only [h2, h4, if_false] at hbc
                have hxz1 : ¬ x.toNat < z.toNat := by omega
                have hxz2 : ¬ z.toNat < x.toNat := by omega
                simp [hxz1, hxz2, ih ys zs hab hbc]

theorem strLtB_connex (a : List Char) :
    ∀ b, a ≠ b → strLtB a b = true ∨ strLtB b a = true := by
  induction a with
  | nil =>
    intro b hne
    cases b with
    | nil => exact absurd rfl hne
    | cons y ys => left; simp [strLtB]
  | cons x xs ih =>
    intro b hne
    cases b with
    | nil => right; simp [strLtB]
    | cons y ys =>
      by_cases h1 : x.toNat < y.toNat
      · left; simp [strLtB, h1]
      · by_cases h2 : y.toNat < x.toNat
        · right; simp [strLtB, h2]
        · have hxy : x = y := charToNat_inj (by omega)
          have hne' : xs ≠ ys := fun h => hne (by rw [hxy, h])
          rcases ih ys hne' with h | h
          · left; simp [strLtB, h1, h2, h]
          · right
            subst hxy
            simp [strLtB, h1, h2, h]

theorem strLeB_total (a b : List Char) : strLeB a b = true ∨ strLeB b a = true := by
  by_cases h : strLtB b a = true
  · right
    simp [strLeB, strLtB_asymm b a h]
  · left
    simp only [strLeB]
    simp only [Bool.not_eq_true] at h
    simp [h]

theorem strLeB_trans (a b c : List Char) :
    strLeB a b = true → strLeB b c = true → strLeB a c = true := by
  intro hab hbc
  simp only [strLeB, Bool.not_eq_true'] at hab hbc ⊢
  by_contra hca
  simp only [Bool.not_eq_false] at hca
  by_cases h : c = b
  · subst h
    rw [hca] at hab
    cases hab
  · rcases strLtB_connex c b h with h1 | h1
    · rw [h1] at hbc; cases hbc
    · have := strLtB_trans b c a h1 hca
      rw [this] at hab
      cases hab

/-! ## Insertion-sort lemmas -/

theorem orderedIns_perm (le : α → α → Bool) (x : α) (l : List α) :
    (orderedIns le x l).Perm (x :: l) := by
  induction l with
  | nil => exact List.Perm.refl _
  | cons y ys ih =>
    simp only [orderedIns]
    split
    · exact List.Perm.refl _
    · exact (ih.cons y).trans (List.Perm.swap x y ys)

theorem insSort_perm (le : α → α → Bool) (l : List α) : (insSort le l).Perm l := by
  induction l with
  | nil => exact List.Perm.refl _
  | cons x xs ih =>
    exact (orderedIns_perm le x (insSort le xs)).trans (ih.cons x)

theorem mem_orderedIns {le : α → α → Bool} {x z : α} {l : List α} :
    z ∈ orderedIns le x l ↔ z = x ∨ z ∈ l := by
  rw [(orderedIns_perm le x l).mem_iff, List.mem_cons]

theorem pairwise_orderedIns (le : α → α → Bool)
    (htot : ∀ a b, le a b = true ∨ le b a = true)
    (htrans : ∀ a b c, le a b = true → le b c = true → le a c = true)
    (x : α) (l : List α) (hl : l.Pairwise (fun a b => le a b = true)) :
    (orderedIns le x l).Pairwise (fun a b => le a b = true) := by
  induction l with
  | nil => simp [orderedIns]
  | cons y ys ih =>
    rcases List.pairwise_cons.mp hl with ⟨hy, hys⟩
    simp only [orderedIns]
    split_ifs with hxy
    · refine List.pairwise_cons.mpr ⟨?_, hl⟩
      intro z hz
      rcases List.mem_cons.mp hz with rfl | hz
      · exact hxy
      · exact htrans x y z hxy (hy z hz)
    · refine List.pairwise_cons.mpr ⟨?_, ih hys⟩
      intro z hz
      rcases mem_orderedIns.mp hz with rfl | hz
      · rcases htot z y with h | h
        · exact absurd h hxy
        · exact h
      · exact hy z hz

theorem pairwise_insSort (le : α → α → Bool)
    (htot : ∀ a b, le a b = true ∨ le b a = true)
    (htrans : ∀ a b c, le a b = true → le b c = true → le a c = true)
    (l : List α) : (insSort le l).Pairwise (fun a b => le a b = true) := by
  induction l with
  | nil => simp [insSort]
  | cons x xs ih => exact pairwise_orderedIns le htot htrans x _ ih

/-! ## Evaluation lemmas for canonically shaped payloads -/

theorem exBind_ok {α β : Type} (x : α) (f : α → Except PyError β) :
    (Except.ok x >>= f) = f x := rfl

theorem exBind_err {α β : Type} (e : PyError) (f : α → Except PyError β) :
    ((Except.error e : Except PyError α) >>= f) = Except.error e := rfl

theorem to_float_str (t : String) : to_float (.str t) = .ok (parseTemp t) := by
  simp only [to_float, parseTemp]
  split_ifs <;> rfl

theorem entryPair_mkEntry (p : String × String) :
    entryPair (mkEntry p) = .ok (.str p.1, parseTemp p.2) := by
  have h1 : dictGet (mkEntry p) "dataDate" = .ok (.str p.1) := rfl
  have h2 : dictGet (mkEntry p) "temperature" = .ok (.str p.2) := rfl
  simp [entryPair, h1, h2, exBind_ok, to_float_str, hashable]

theorem mapEx_ok {α β : Type} {f : α → Except PyError β} {k : α → β} (l : List α)
    (h : ∀ x ∈ l, f x = .ok (k x)) : mapEx f l = .ok (l.map k) := by
  induction l with
  | nil => rfl
  | cons x xs ih =>
    have hx := h x (List.mem_cons_self x xs)
    have hxs := ih (fun y hy => h y (List.mem_cons_of_mem x hy))
    simp only [mapEx, hx, hxs]
    rfl

theorem dedup_map_inj {α β : Type} [DecidableEq α] [DecidableEq β] {f : α → β}
    (hf : Function.Injective f) (l : List α) :
    (l.map f).dedup = l.dedup.map f := by
  induction l with
  | nil => simp
  | cons x xs ih =>
    by_cases h : x ∈ xs
    · rw [List.map_cons, List.dedup_cons_of_mem (List.mem_map_of_mem f h),
        List.dedup_cons_of_mem h, ih]
    · have h' : f x ∉ xs.map f := by
        intro hmem
        obtain ⟨y, hy, hfy⟩ := List.mem_map.mp hmem
        exact h ((hf hfy) ▸ hy)
      rw [List.map_cons, List.dedup_cons_of_not_mem h',
        List.dedup_cons_of_not_mem h, List.map_cons, ih]

theorem orderedIns_map {α β : Type} {f : α → β} {le : α → α → Bool} {le' : β → β → Bool}
    (hc : ∀ a b, le' (f a) (f b) = le a b) (x : α) (l : List α) :
    orderedIns le' (f x) (l.map f) = (orderedIns le x l).map f := by
  induction l with
  | nil => rfl
  | cons y ys ih =>
    by_cases hxy : le x y = true
    · simp [orderedIns, hc x y, hxy]
    · simp [orderedIns, hc x y, hxy, ih]

theorem insSort_map {α β : Type} {f : α → β} {le : α → α → Bool} {le' : β → β → Bool}
    (hc : ∀ a b, le' (f a) (f b) = le a b) (l : List α) :
    insSort le' (l.map f) = (insSort le l).map f := by
  induction l with
  | nil => rfl
  | cons x xs ih =>
    simp only [List.map_cons, insSort, ih]
    exact orderedIns_map hc x _

theorem pySorted_strs (ds : List String) :
    pySorted (ds.map .str) = .ok ((insSort strLeS ds).map .str) := by
  have hc : ∀ a b, jsonStrLe (Json.str a) (Json.str b) = strLeS a b := fun a b => rfl
  cases ds with
  | nil => rfl
  | cons d1 ds' =>
    cases ds' with
    | nil => rfl
    | cons d2 rest =>
      have hlen : ¬ (((d1 :: d2 :: rest).map Json.str).length ≤ 1) := by simp
      have hall : ((d1 :: d2 :: rest).map Json.str).all isStrJ = true := by
        simp [List.all_map, Function.comp, isStrJ]
      simp only [pySorted, if_neg hlen, hall, if_pos]
      rw [insSort_map hc]

theorem mapGet_map_str_aux (entries : List (String × String)) (d : String)
    (acc : Option String) :
    (entries.map (fun p => (Json.str p.1, parseTemp p.2))).foldl
      (fun acc' p => if p.1 = Json.str d then p.2 else acc') (acc.bind parseTemp)
    = (entries.foldl (fun a p => if p.1 = d then some p.2 else a) acc).bind parseTemp := by
  induction entries generalizing acc with
  | nil => rfl
  | cons e es ih =>
    simp only [List.map_cons, List.foldl_cons, Json.str.injEq]
    by_cases h : e.1 = d
    · simp only [if_pos h]
      have h2 := ih (some e.2)
      simpa using h2
    · simp only [if_neg h]
      exact ih acc

theorem mapGet_map_str (entries : List (String × String)) (d : String) :
    mapGet (entries.map (fun p => (Json.str p.1, parseTemp p.2))) (Json.str d)
      = (lastLookup entries d).bind parseTemp := by
  have h := mapGet_map_str_aux entries d none
  simpa [mapGet, lastLookup] using h

theorem mapEx_map_ok {α β γ : Type} {f : β → Except PyError γ} {g : α → β} {k : α → γ}
    (l : List α) (h : ∀ x ∈ l, f (g x) = .ok (k x)) :
    mapEx f (l.map g) = .ok (l.map k) := by
  induction l with
  | nil => rfl
  | cons x xs ih =>
    have hx := h x (List.mem_cons_self x xs)
    have hxs := ih (fun y hy => h y (List.mem_cons_of_mem x hy))
    simp only [List.map_cons, mapEx, hx, hxs]
    rfl

theorem str_injective : Function.Injective Json.str := fun a b h => by injection h

theorem parseLocation_mkLocation (l : LocData) :
    parseLocation (mkLocation l) = .ok (codeLocRecords l) := by
  have hname : dictGet (mkLocation l) "locationName" = .ok (.str l.name) := rfl
  have hwe : dictGetD (mkLocation l) "weatherElements" (.obj []) =
      .ok (.obj [("MaxT", .obj [("daily", .arr (l.maxDaily.map mkEntry))]),
        ("MinT", .obj [("daily", .arr (l.minDaily.map mkEntry))])]) := rfl
  have hmaxT : dictGetD (Json.obj [("MaxT", .obj [("daily", .arr (l.maxDaily.map mkEntry))]),
        ("MinT", .obj [("daily", .arr (l.minDaily.map mkEntry))])]) "MaxT" (.obj []) =
      .ok (.obj [("daily", .arr (l.maxDaily.map mkEntry))]) := rfl
  have hminT : dictGetD (Json.obj [("MaxT", .obj [("daily", .arr (l.maxDaily.map mkEntry))]),
        ("MinT", .obj [("daily", .arr (l.minDaily.map mkEntry))])]) "MinT" (.obj []) =
      .ok (.obj [("daily", .arr (l.minDaily.map mkEntry))]) := rfl
  have hmaxD : dictGetD (Json.obj [("daily", .arr (l.maxDaily.map mkEntry))]) "daily" (.arr []) =
      .ok (.arr (l.maxDaily.map mkEntry)) := rfl
  have hminD : dictGetD (Json.obj [("daily", .arr (l.minDaily.map mkEntry))]) "daily" (.arr []) =
      .ok (.arr (l.minDaily.map mkEntry)) := rfl
  have hmax : mapEx entryPair (l.maxDaily.map mkEntry) =
      .ok (l.maxDaily.map (fun p => (Json.str p.1, parseTemp p.2))) :=
    mapEx_map_ok _ (fun p _ => entryPair_mkEntry p)
  have hmin : mapEx entryPair (l.minDaily.map mkEntry) =
      .ok (l.minDaily.map (fun p => (Json.str p.1, parseTemp p.2))) :=
    mapEx_map_ok _ (fun p _ => entryPair_mkEntry p)
  have hkey : ((l.maxDaily.map (fun p => (Json.str p.1, parseTemp p.2))).map Prod.fst ++
        (l.minDaily.map (fun p => (Json.str p.1, parseTemp p.2))).map Prod.fst).dedup =
      (dateUnion l).map Json.str := by
    rw [List.map_map, List.map_map]
    have h1 : (Prod.fst ∘ fun p : String × String => (Json.str p.1, parseTemp p.2)) =
        Json.str ∘ Prod.fst := rfl
    rw [h1, ← List.map_map, ← List.map_map, ← List.map_append, dedup_map_inj str_injective]
    rfl
  by_cases hn : l.name = ""
  · simp [parseLocation, hname, exBind_ok, truthy, hn, codeLocRecords]
  · have htr : truthy (.str l.name) = true := by simp [truthy, hn]
    simp only [parseLocation, hname, exBind_ok, htr, Bool.not_true, Bool.false_eq_true,
      if_false, hwe, hmaxT, hminT, hmaxD, hminD, pyIterate, hmax, hmin, hkey,
      pySorted_strs, List.filterMap_map]
    rw [codeLocRecords, if_neg hn]
    congr 1
    apply List.filterMap_congr
    intro d _
    by_cases hd : d = ""
    · simp [Function.comp, truthy, hd]
    · simp only [Function.comp, truthy, hd, if_neg hd]
      rw [mapGet_map_str, mapGet_map_str]
      simp [hd]

theorem foldl_lastLookup_frozen (es : List (String × String)) (d : String)
    (acc : Option String) (h : d ∉ es.map Prod.fst) :
    es.foldl (fun a p => if p.1 = d then some p.2 else a) acc = acc := by
  induction es generalizing acc with
  | nil => rfl
  | cons e es ih =>
    simp only [List.map_cons, List.mem_cons] at h
    push_neg at h
    have hne : ¬ (e.1 = d) := fun hh => h.1 hh.symm
    simp only [List.foldl_cons, if_neg hne]
    exact ih acc h.2

theorem lastLookup_eq_lookup (es : List (String × String))
    (hnd : (es.map Prod.fst).Nodup) (d : String) :
    lastLookup es d = es.lookup d := by
  induction es with
  | nil => rfl
  | cons e es ih =>
    simp only [List.map_cons, List.nodup_cons] at hnd
    by_cases h : e.1 = d
    · have hnot : d ∉ es.map Prod.fst := h ▸ hnd.1
      have hfrozen := foldl_lastLookup_frozen es d (some e.2) hnot
      have hlast : lastLookup (e :: es) d = some e.2 := by
        simp only [lastLookup, List.foldl_cons, if_pos h]
        exact hfrozen
      have hbeq : (d == e.1) = true := by simp [h]
      rw [hlast]
      cases e with
      | mk k v => simp only [List.lookup, hbeq]
    · have hlast : lastLookup (e :: es) d = lastLookup es d := by
        simp only [lastLookup, List.foldl_cons, if_neg h]
      have hbeq : (d == e.1) = false := by simp; exact fun hh => h hh.symm
      rw [hlast, ih hnd.2]
      cases e with
      | mk k v => simp only [List.lookup, hbeq]

theorem spec_eq_codeLocRecords (l : LocData)
    (hd : ∀ d ∈ dateUnion l, d ≠ "")
    (hmax : (l.maxDaily.map Prod.fst).Nodup)
    (hmin : (l.minDaily.map Prod.fst).Nodup) :
    specLocRecords l = codeLocRecords l := by
  by_cases hn : l.name = ""
  · simp [specLocRecords, codeLocRecords, hn]
  · simp only [specLocRecords, codeLocRecords, if_neg hn]
    have hmem : ∀ d ∈ insSort strLeS (dateUnion l), d ≠ "" :=
      fun d hdm => hd d ((insSort_perm strLeS (dateUnion l)).mem_iff.mp hdm)
    rw [← List.filterMap_eq_map]
    apply List.filterMap_congr
    intro d hdm
    rw [if_neg (hmem d hdm)]
    simp only [Function.comp]
    rw [lastLookup_eq_lookup l.maxDaily hmax d, lastLookup_eq_lookup l.minDaily hmin d]

theorem parse_forecasts_mkPayload (ls : List LocData) :
    parse_forecasts (mkPayload (ls.map mkLocation)) =
      .ok ((ls.map codeLocRecords).flatten) := by
  have hloc : getLocations (mkPayload (ls.map mkLocation)) =
      some (.arr (ls.map mkLocation)) := rfl
  have hmap : mapEx parseLocation (ls.map mkLocation) = .ok (ls.map codeLocRecords) :=
    mapEx_map_ok ls (fun l _ => parseLocation_mkLocation l)
  simp only [parse_forecasts, hloc, pyIterate, exBind_ok, hmap]

/-! ## Storage lemmas -/

theorem keysOk_upsertRow (rows : List DbRow) (r : DbRow) (h : keysOk rows) :
    keysOk (upsertRow rows r) := by
  unfold keysOk upsertRow
  rw [List.pairwise_append]
  refine ⟨h.sublist (List.filter_sublist rows), List.pairwise_singleton _ _, ?_⟩
  intro a ha b hb
  rcases List.mem_singleton.mp hb with rfl
  have hpred := (List.mem_filter.mp ha).2
  intro hkey
  simp only [Bool.not_eq_true', Bool.and_eq_false_iff, beq_eq_false_iff_ne] at hpred
  rcases hpred with h1 | h1 <;> exact h1 (by simp [hkey.1, hkey.2])

theorem keysOk_foldl_upsert (rs : List DbRow) (init : List DbRow) (h : keysOk init) :
    keysOk (rs.foldl upsertRow init) := by
  induction rs generalizing init with
  | nil => exact h
  | cons r rs ih => exact ih (upsertRow init r) (keysOk_upsertRow init r h)

/-- Key-uniqueness of a database state (`none` = table absent). -/
def dbOk : Option (List DbRow) → Prop
  | none => True
  | some rows => keysOk rows

theorem dbOk_save (records : List ForecastRecord) (ts : String)
    (db : Option (List DbRow)) (h : dbOk db) : dbOk (save_to_db records ts db) := by
  unfold save_to_db
  split_ifs with he
  · exact h
  · have hinit : keysOk (db.getD []) := by
      cases db with
      | none => exact List.Pairwise.nil
      | some rows => exact h
    exact keysOk_foldl_upsert _ _ hinit

theorem dbOk_runBatches_from (batches : List (List ForecastRecord × String)) :
    ∀ db, dbOk db → dbOk (batches.foldl (fun d b => save_to_db b.1 b.2 d) db) := by
  induction batches with
  | nil => exact fun db h => h
  | cons b bs ih =>
    intro db h
    exact ih (save_to_db b.1 b.2 db) (dbOk_save b.1 b.2 db h)

theorem rowsForKey_upsert_self (rows : List DbRow) (r : DbRow) :
    rowsForKey (upsertRow rows r) r.location r.dataDate = [r] := by
  unfold rowsForKey upsertRow
  rw [List.filter_append]
  have h1 : (rows.filter
      (fun q => !(q.location == r.location && q.dataDate == r.dataDate))).filter
      (fun q => q.location == r.location && q.dataDate == r.dataDate) = [] := by
    rw [List.filter_filter]
    apply List.filter_eq_nil_iff.mpr
    intro q _
    simp only [Bool.and_eq_true, Bool.not_eq_true', Bool.and_eq_false_iff]
    intro hcontra
    rcases hcontra.2 with h | h <;> simp [hcontra.1.1, hcontra.1.2] at h
  rw [h1]
  simp

theorem mem_foldl_upsert (rs : List DbRow) (init : List DbRow) (row : DbRow)
    (h : row ∈ rs.foldl upsertRow init) : row ∈ init ∨ row ∈ rs := by
  induction rs generalizing init with
  | nil => exact Or.inl h
  | cons r rest ih =>
    rcases ih (upsertRow init r) h with hin | hin
    · unfold upsertRow at hin
      rcases List.mem_append.mp hin with hf | hr
      · exact Or.inl ((List.filter_sublist init).mem hf)
      · exact Or.inr (List.mem_cons.mpr (Or.inl (List.mem_singleton.mp hr)))
    · exact Or.inr (List.mem_cons_of_mem r hin)

/-! ## `parse_forecasts` output-shape lemmas -/

theorem mapEx_mem {α β : Type} {f : α → Except PyError β} {xs : List α} {yss : List β}
    (h : mapEx f xs = .ok yss) : ∀ ys ∈ yss, ∃ x ∈ xs, f x = .ok ys := by
  induction xs generalizing yss with
  | nil =>
    injection h with h
    subst h
    intro ys hys
    cases hys
  | cons x xs ih =>
    simp only [mapEx] at h
    cases hx : f x with
    | error e => rw [hx, exBind_err] at h; exact Except.noConfusion h
    | ok y =>
      rw [hx, exBind_ok] at h
      cases hxs : mapEx f xs with
      | error e => rw [hxs, exBind_err] at h; exact Except.noConfusion h
      | ok ys' =>
        rw [hxs, exBind_ok] at h
        injection h with h
        subst h
        intro ys hys
        rcases List.mem_cons.mp hys with rfl | hys
        · exact ⟨x, List.mem_cons_self x xs, hx⟩
        · obtain ⟨x', hx', hfx'⟩ := ih hxs ys hys
          exact ⟨x', List.mem_cons_of_mem x hx', hfx'⟩

theorem parseLocation_truthy (loc : Json) (recs : List ForecastRecord)
    (h : parseLocation loc = .ok recs) :
    ∀ r ∈ recs, truthy r.dataDate = true ∧ truthy r.location = true := by
  unfold parseLocation at h
  cases hname : dictGet loc "locationName" with
  | error e => rw [hname, exBind_err] at h; exact Except.noConfusion h
  | ok name =>
    rw [hname, exBind_ok] at h
    by_cases htr : truthy name = true
    · have hcond : ¬ ((!truthy name) = true) := by simp [htr]
      rw [if_neg hcond] at h
      cases hwe : dictGetD loc "weatherElements" (.obj []) with
      | error e => rw [hwe, exBind_err] at h; exact Except.noConfusion h
      | ok we =>
        rw [hwe, exBind_ok] at h
        cases hmT : dictGetD we "MaxT" (.obj []) with
        | error e => rw [hmT, exBind_err] at h; exact Except.noConfusion h
        | ok maxT =>
          rw [hmT, exBind_ok] at h
          cases hmD : dictGetD maxT "daily" (.arr []) with
          | error e => rw [hmD, exBind_err] at h; exact Except.noConfusion h
          | ok maxDaily =>
            rw [hmD, exBind_ok] at h
            cases hnT : dictGetD we "MinT" (.obj []) with
            | error e => rw [hnT, exBind_err] at h; exact Except.noConfusion h
            | ok minT =>
              rw [hnT, exBind_ok] at h
              cases hnD : dictGetD minT "daily" (.arr []) with
              | error e => rw [hnD, exBind_err] at h; exact Except.noConfusion h
              | ok minDaily =>
                rw [hnD, exBind_ok] at h
                cases hiM : pyIterate maxDaily with
                | error e => rw [hiM, exBind_err] at h; exact Except.noConfusion h
                | ok maxEntries =>
                  rw [hiM, exBind_ok] at h
                  cases hpM : mapEx entryPair maxEntries with
                  | error e => rw [hpM, exBind_err] at h; exact Except.noConfusion h
                  | ok maxPairs =>
                    rw [hpM, exBind_ok] at h
                    cases hiN : pyIterate minDaily with
                    | error e => rw [hiN, exBind_err] at h; exact Except.noConfusion h
                    | ok minEntries =>
                      rw [hiN, exBind_ok] at h
                      cases hpN : mapEx entryPair minEntries with
                      | error e => rw [hpN, exBind_err] at h; exact Except.noConfusion h
                      | ok minPairs =>
                        rw [hpN, exBind_ok] at h
                        cases hs : pySorted
                            ((maxPairs.map (·.1) ++ minPairs.map (·.1)).dedup) with
                        | error e => rw [hs, exBind_err] at h; exact Except.noConfusion h
                        | ok sortedKeys =>
                          rw [hs, exBind_ok] at h
                          injection h with h
                          subst h
                          intro r hr
                          obtain ⟨d, _, hd⟩ := List.mem_filterMap.mp hr
                          by_cases htd : truthy d = true
                          · rw [if_pos htd] at hd
                            injection hd with hd
                            subst hd
                            exact ⟨htd, htr⟩
                          · rw [if_neg htd] at hd
                            exact Option.noConfusion hd
    · have hcond : (!truthy name) = true := by
        simp only [Bool.not_eq_true] at htr
        simp [htr]
      rw [if_pos hcond] at h
      injection h with h
      subst h
      intro r hr
      cases hr

theorem string_ne_data {a b : String} (h : a ≠ b) : a.data ≠ b.data := by
  intro hd
  apply h
  cases a
  cases b
  exact congrArg String.mk hd

theorem recordDates_spec (l : LocData) (hn : l.name ≠ "") :
    recordDates (specLocRecords l) = insSort strLeS (dateUnion l) := by
  simp only [recordDates, specLocRecords, if_neg hn, List.map_map]
  have hfun : ((fun r : ForecastRecord =>
      match r.dataDate with | .str s => s | _ => "") ∘
      (fun d => (⟨.str l.name, .str d, (l.maxDaily.lookup d).bind parseTemp,
        (l.minDaily.lookup d).bind parseTemp⟩ : ForecastRecord))) = fun d => d := rfl
  rw [hfun, List.map_id']

theorem recordDates_code (l : LocData) (hn : l.name ≠ "") :
    recordDates (codeLocRecords l)
      = (insSort strLeS (dateUnion l)).filterMap
          (fun d => if d = "" then none else some d) := by
  simp only [recordDates, codeLocRecords, if_neg hn, List.map_filterMap]
  apply List.filterMap_congr
  intro d _
  by_cases hd : d = "" <;> simp [hd]

theorem filterMap_if_sublist (L : List String) :
    ((L.filterMap (fun d => if d = "" then none else some d)).Sublist L) := by
  induction L with
  | nil => simp
  | cons x xs ih =>
    rw [List.filterMap_cons]
    split
    · exact ih.cons x
    · rename_i heq
      by_cases hxe : x = ""
      · rw [if_pos hxe] at heq
        exact Option.noConfusion heq
      · rw [if_neg hxe] at heq
        injection heq with heq
        subst heq
        exact ih.cons₂ x

theorem pairwise_lt_insSort_dates (ds : List String) (hnd : ds.Nodup) :
    (insSort strLeS ds).Pairwise (fun a b => strLtB a.data b.data = true) := by
  have htot : ∀ a b : String, strLeS a b = true ∨ strLeS b a = true :=
    fun a b => strLeB_total a.data b.data
  have htrans : ∀ a b c : String,
      strLeS a b = true → strLeS b c = true → strLeS a c = true :=
    fun a b c => strLeB_trans a.data b.data c.data
  have hle := pairwise_insSort strLeS htot htrans ds
  have hnd' : (insSort strLeS ds).Nodup := ((insSort_perm strLeS ds).nodup_iff).mpr hnd
  have hand := hle.and hnd'
  apply hand.imp
  intro a b hab
  rcases hab with ⟨hle', hne⟩
  rcases strLtB_connex a.data b.data (string_ne_data hne) with h | h
  · exact h
  · exfalso
    simp [strLeS, strLeB, h] at hle'

/-! # Claim theorems -/

/-- Claim C1: for every canonically shaped payload whose daily entries carry
non-empty, per-series-distinct date strings, `parse_forecasts` emits, for
each location, exactly the spec's records: for a non-empty location name,
one record per date in the union of the MaxT/MinT date keys in strictly
ascending (code-point) order, each carrying the max (resp. min)
temperature when the date is present in that series and null when absent
(`specLocRecords`); an empty name contributes no records, and the number
of records per location is exactly the size of the date union. -/
theorem parse_forecasts_union_sorted
    (ls : List LocData)
    (hdate : ∀ l ∈ ls, ∀ d ∈ dateUnion l, d ≠ "")
    (hmax : ∀ l ∈ ls, (l.maxDaily.map Prod.fst).Nodup)
    (hmin : ∀ l ∈ ls, (l.minDaily.map Prod.fst).Nodup) :
    parse_forecasts (mkPayload (ls.map mkLocation))
        = .ok ((ls.map specLocRecords).flatten) ∧
    ∀ l ∈ ls,
      (l.name = "" → specLocRecords l = []) ∧
      (l.name ≠ "" →
        (specLocRecords l).length = (dateUnion l).length ∧
        (recordDates (specLocRecords l)).Pairwise
          (fun a b => strLtB a.data b.data = true)) := by
  constructor
  · rw [parse_forecasts_mkPayload ls]
    have hmapeq : ls.map codeLocRecords = ls.map specLocRecords := by
      apply List.map_congr_left
      intro l hl
      exact (spec_eq_codeLocRecords l (hdate l hl) (hmax l hl) (hmin l hl)).symm
    rw [hmapeq]
  · intro l hl
    constructor
    · intro hn
      simp [specLocRecords, hn]
    · intro hn
      constructor
      · simp only [specLocRecords, if_neg hn, List.length_map]
        exact (insSort_perm strLeS (dateUnion l)).length_eq
      · rw [recordDates_spec l hn]
        apply pairwise_lt_insSort_dates
        exact List.nodup_dedup _

/-- Witness for C1: two locations with disjoint MaxT/MinT date sets. -/
theorem parse_forecasts_union_sorted_witness :
    (∀ l ∈ ([⟨"北部地區", [("2024-01-01", "20"), ("2024-01-02", "21")],
        [("2024-01-03", "15")]⟩,
      ⟨"南部地區", [("2024-01-04", "30")], []⟩] : List LocData),
      ∀ d ∈ dateUnion l, d ≠ "") ∧
    parse_forecasts (mkPayload
        (([⟨"北部地區", [("2024-01-01", "20"), ("2024-01-02", "21")],
            [("2024-01-03", "15")]⟩,
          ⟨"南部地區", [("2024-01-04", "30")], []⟩] : List LocData).map mkLocation))
      = .ok ((([⟨"北部地區", [("2024-01-01", "20"), ("2024-01-02", "21")],
            [("2024-01-03", "15")]⟩,
          ⟨"南部地區", [("2024-01-04", "30")], []⟩] : List LocData).map
            specLocRecords).flatten) :=
  ⟨by decide,
    (parse_forecasts_union_sorted _ (by decide) (by decide) (by decide)).1⟩

/-- Claim C3: whenever the nested key-path navigation fails (a key is
missing or an intermediate value is not a dict — the caught
`KeyError`/`TypeError`), `parse_forecasts` returns `[]` and raises
nothing. -/
theorem parse_forecasts_bad_path (payload : Json)
    (h : getLocations payload = none) : parse_forecasts payload = .ok [] := by
  simp [parse_forecasts, h]

/-- Witness for C3: a payload whose `"cwaopendata"` value is `None`. -/
theorem parse_forecasts_bad_path_witness :
    getLocations (Json.obj [("cwaopendata", .null)]) = none ∧
    parse_forecasts (Json.obj [("cwaopendata", .null)]) = .ok [] :=
  ⟨by decide, parse_forecasts_bad_path _ (by decide)⟩

/-- Claim C4: on the spec's §8 example payload, `parse_forecasts` returns
exactly one record `("北部地區", "2024-01-01", 20.0, 15.0)`. -/
theorem parse_forecasts_spec_example :
    parse_forecasts examplePayload =
      .ok [⟨.str "北部地區", .str "2024-01-01",
        some (.finite 20), some (.finite 15)⟩] := by
  decide

/-- Claim C5: `to_float` maps `None` and `""` to null, maps every string the
Python-float grammar accepts (`pyFloat?`) to its exact value, maps every
string it rejects to null (never to zero, never raising), as shown both
universally and on concrete numeric and non-numeric strings. -/
theorem to_float_numeric_or_null :
    (to_float .null = .ok none) ∧
    (to_float (.str "") = .ok none) ∧
    (∀ (s : String) (v : PyFloat), pyFloat? s = some v →
      to_float (.str s) = .ok (some v)) ∧
    (∀ s : String, pyFloat? s = none → to_float (.str s) = .ok none) ∧
    (pyFloat? "20" = some (.finite 20)) ∧
    (pyFloat? "" = none) ∧
    (pyFloat? "abc" = none) ∧
    (pyFloat? "-3.5e1" = some (.finite (-35))) := by
  refine ⟨rfl, rfl, ?_, ?_, by decide, by decide, by decide, by decide⟩
  · intro s v h
    rw [to_float_str s]
    unfold parseTemp
    by_cases hs : s = ""
    · subst hs
      rw [show pyFloat? "" = none from by decide] at h
      exact Option.noConfusion h
    · rw [if_neg hs, h]
  · intro s h
    rw [to_float_str s]
    unfold parseTemp
    by_cases hs : s = ""
    · rw [if_pos hs]
    · rw [if_neg hs, h]

/-- Witness for C5: the numeric string `"21.5"` coerces to `21.5`. -/
theorem to_float_numeric_or_null_witness :
    pyFloat? "21.5" = some (.finite (mkRat 43 2)) ∧
    to_float (.str "21.5") = .ok (some (.finite (mkRat 43 2))) :=
  ⟨by decide, to_float_numeric_or_null.2.2.1 "21.5" _ (by decide)⟩

/-- Claim C6: `fetch_data` returns the parsed network body on success; on a
network-level failure it returns the parsed fallback file when it
exists, and raises `FileNotFoundError` (propagating unhandled) when it
does not. -/
theorem fetch_data_contract :
    (∀ (body : Json) (fb : Option Json), fetch_data (.ok body) fb = .ok body) ∧
    (∀ (e : Unit) (j : Json), fetch_data (.error e) (some j) = .ok j) ∧
    (∀ e : Unit, fetch_data (.error e) none = .error .fileNotFound) :=
  ⟨fun _ _ => rfl, fun _ _ => rfl, fun _ => rfl⟩

/-- Claim C7: `save_to_db` on an empty record list changes nothing: an
absent table (or database file) stays absent, existing rows stay exactly
as they are, and no error is raised. -/
theorem save_to_db_empty_noop :
    ∀ (ts : String) (db : Option (List DbRow)), save_to_db [] ts db = db :=
  fun _ _ => rfl

/-- Claim C8: every row a `save_to_db` call writes (i.e. every row of the
resulting table that was not already present) carries the batch's one
shared `fetched_at` timestamp. -/
theorem save_to_db_shared_timestamp (records : List ForecastRecord) (ts : String)
    (db : Option (List DbRow)) (rows : List DbRow)
    (h : save_to_db records ts db = some rows) :
    ∀ row ∈ rows, row ∈ db.getD [] ∨ row.fetchedAt = ts := by
  unfold save_to_db at h
  split_ifs at h with he
  · intro row hrow
    left
    cases db with
    | none => exact Option.noConfusion h
    | some rs =>
      injection h with h
      subst h
      exact hrow
  · injection h with h
    subst h
    intro row hrow
    rcases mem_foldl_upsert _ _ _ hrow with hin | hin
    · exact Or.inl hin
    · right
      obtain ⟨rec, _, hrec⟩ := List.mem_map.mp hin
      rw [← hrec]
      rfl

/-- A one-record batch used by the C8 witness. -/
def c8Rec : ForecastRecord := ⟨.str "A", .str "2024-01-01", some (.finite 20), none⟩

/-- Witness for C8: a single-record batch stamped with `"ts0"`. -/
theorem save_to_db_shared_timestamp_witness :
    save_to_db [c8Rec] "ts0" none = some [mkRow c8Rec "ts0"] ∧
    ∀ row ∈ [mkRow c8Rec "ts0"],
      row ∈ (none : Option (List DbRow)).getD [] ∨ row.fetchedAt = "ts0" := by
  constructor
  · decide
  · exact save_to_db_shared_timestamp [c8Rec] "ts0" none [mkRow c8Rec "ts0"] (by decide)

/-- Claim C2: (1) after any sequence of `save_to_db` calls starting from a
fresh database, the `forecasts` table holds at most one row per
`(location, data_date)` key; (2) re-ingesting a record with the same key
(any values) after an earlier ingestion leaves exactly one row for that
key, carrying the new record's temperatures and the new call's
timestamp (last-write-wins). -/
theorem save_to_db_unique_key_last_write_wins :
    (∀ (batches : List (List ForecastRecord × String)) (rows : List DbRow),
      runBatches batches = some rows → keysOk rows) ∧
    (∀ (db : Option (List DbRow)) (r r' : ForecastRecord) (ts ts' : String),
      r'.location = r.location → r'.dataDate = r.dataDate →
      rowsForKey ((save_to_db [r'] ts' (save_to_db [r] ts db)).getD [])
        r.location r.dataDate = [mkRow r' ts']) := by
  constructor
  · intro batches rows h
    have hok := dbOk_runBatches_from batches none trivial
    rw [show (batches.foldl (fun d b => save_to_db b.1 b.2 d) none)
        = runBatches batches from rfl, h] at hok
    exact hok
  · intro db r r' ts ts' hl hd
    have h1 : save_to_db [r] ts db = some (upsertRow (db.getD []) (mkRow r ts)) := rfl
    have h2 : save_to_db [r'] ts' (some (upsertRow (db.getD []) (mkRow r ts)))
        = some (upsertRow (upsertRow (db.getD []) (mkRow r ts)) (mkRow r' ts')) := rfl
    rw [h1, h2]
    have h3 : rowsForKey (upsertRow (upsertRow (db.getD []) (mkRow r ts))
        (mkRow r' ts')) r'.location r'.dataDate = [mkRow r' ts'] :=
      rowsForKey_upsert_self _ _
    rw [← hl, ← hd]
    exact h3

/-- Witness for C2: re-ingesting key `("A", "2024-01-01")` with a new
max temperature and timestamp leaves exactly the new row. -/
theorem save_to_db_unique_key_last_write_wins_witness :
    runBatches [([⟨.str "A", .str "2024-01-01", some (.finite 20), none⟩], "t1"),
        ([⟨.str "A", .str "2024-01-01", some (.finite 25), none⟩], "t2")]
      = some [⟨.str "A", .str "2024-01-01", some (.finite 25), none, "t2"⟩] ∧
    keysOk [⟨.str "A", .str "2024-01-01", some (.finite 25), none, "t2"⟩] ∧
    rowsForKey ((save_to_db [⟨.str "A", .str "2024-01-01", some (.finite 25), none⟩]
          "t2" (save_to_db [⟨.str "A", .str "2024-01-01", some (.finite 20), none⟩]
            "t1" none)).getD [])
        (.str "A") (.str "2024-01-01")
      = [mkRow ⟨.str "A", .str "2024-01-01", some (.finite 25), none⟩ "t2"] := by
  refine ⟨by decide, ?_, ?_⟩
  · exact save_to_db_unique_key_last_write_wins.1
      [([⟨.str "A", .str "2024-01-01", some (.finite 20), none⟩], "t1"),
        ([⟨.str "A", .str "2024-01-01", some (.finite 25), none⟩], "t2")]
      [⟨.str "A", .str "2024-01-01", some (.finite 25), none, "t2"⟩] (by decide)
  · exact save_to_db_unique_key_last_write_wins.2 none
      ⟨.str "A", .str "2024-01-01", some (.finite 20), none⟩
      ⟨.str "A", .str "2024-01-01", some (.finite 25), none⟩ "t1" "t2" rfl rfl

/-- Claim C9 (amended): every record a *successful* `parse_forecasts` run
emits has a truthy (hence non-null, non-empty) `dataDate` and a truthy
location name — the empty-string date and falsy names are filtered.  (As
stated, C9 is false: an entry with an absent/`None` `dataDate` next to a
string-dated entry makes the key sort raise `TypeError` instead of being
silently dropped; see the counterexample.) -/
theorem parse_forecasts_emitted_truthy (payload : Json) (recs : List ForecastRecord)
    (h : parse_forecasts payload = .ok recs) :
    ∀ r ∈ recs, truthy r.dataDate = true ∧ truthy r.location = true := by
  unfold parse_forecasts at h
  cases hloc : getLocations payload with
  | none =>
    rw [hloc] at h
    injection h with h
    subst h
    intro r hr
    cases hr
  | some locs =>
    rw [hloc] at h
    have h2 : (do
        let locList ← pyIterate locs
        let recss ← mapEx parseLocation locList
        Except.ok recss.flatten) = Except.ok recs := h
    clear h
    cases hit : pyIterate locs with
    | error e => rw [hit, exBind_err] at h2; exact Except.noConfusion h2
    | ok locList =>
      rw [hit, exBind_ok] at h2
      cases hm : mapEx parseLocation locList with
      | error e => rw [hm, exBind_err] at h2; exact Except.noConfusion h2
      | ok recss =>
        rw [hm, exBind_ok] at h2
        injection h2 with h2
        subst h2
        intro r hr
        obtain ⟨rs, hrs, hrmem⟩ := List.mem_flatten.mp hr
        obtain ⟨loc, _, hploc⟩ := mapEx_mem hm rs hrs
        exact parseLocation_truthy loc rs hploc r hrmem

/-- Witness for C9 (amended): the spec's example payload emits one
record with truthy date and location. -/
theorem parse_forecasts_emitted_truthy_witness :
    parse_forecasts examplePayload =
      .ok [⟨.str "北部地區", .str "2024-01-01",
        some (.finite 20), some (.finite 15)⟩] ∧
    ∀ r ∈ [(⟨.str "北部地區", .str "2024-01-01",
        some (.finite 20), some (.finite 15)⟩ : ForecastRecord)],
      truthy r.dataDate = true ∧ truthy r.location = true := by
  refine ⟨by decide, ?_⟩
  exact parse_forecasts_emitted_truthy examplePayload _ (by decide)

/-- Counterexample to **C9** as stated: a MaxT daily entry *missing* its
`dataDate` (its key is `None`) next to a string-dated entry is not
silently dropped — `sorted` compares `None` with `str` and
`parse_forecasts` raises `TypeError`, although the entry carries a valid
temperature. -/
theorem parse_forecasts_missing_date_raises :
    parse_forecasts (mkPayload [Json.obj [("locationName", .str "北部地區"),
      ("weatherElements", .obj [
        ("MaxT", .obj [("daily", .arr [.obj [("temperature", .str "20")],
          mkEntry ("2024-01-01", "21")])]),
        ("MinT", .obj [("daily", .arr [])])])]]) = .error .typeError := by
  decide

/-- Claim C10: on a canonically shaped single-location payload — with no
assumption that dates are unique within a series — `parse_forecasts`
emits `codeLocRecords`, whose temperature for each date is that of the
*last* entry of the series carrying it (`lastLookup`), and emits at most
one record per date (distinct record dates). -/
theorem parse_forecasts_duplicate_date_last_wins (l : LocData) :
    parse_forecasts (mkPayload [mkLocation l]) = .ok (codeLocRecords l) ∧
    (recordDates (codeLocRecords l)).Nodup := by
  constructor
  · have h := parse_forecasts_mkPayload [l]
    simpa using h
  · by_cases hn : l.name = ""
    · simp [recordDates, codeLocRecords, hn]
    · rw [recordDates_code l hn]
      have hnd : (insSort strLeS (dateUnion l)).Nodup :=
        ((insSort_perm strLeS (dateUnion l)).nodup_iff).mpr (List.nodup_dedup _)
      exact hnd.sublist (filterMap_if_sublist _)

example :
    parse_forecasts (mkPayload [mkLocation
      ⟨"N", [("2024-01-01", "20"), ("2024-01-01", "25")], []⟩]) =
    .ok [⟨.str "N", .str "2024-01-01", some (.finite 25), none⟩] := by
  decide
